import Mathlib

/-!
Shallow embedding of the `rs-sixaxispairer` repository, a tool that reads
and writes the paired-host Bluetooth MAC address of Sony SixAxis / DualShock 4
controllers over USB HID feature reports.

Sources embedded here:
  * `src/mac.rs` — the `MACAddress` type, its `Display` implementation and
    `from_string` / `from_bytes` / `as_bytes`;
  * `src/sixaxis.rs` — the known-device registry, the device matcher of
    `SixAxisController::open`, and the feature-report construction and
    decoding of `set_paired_mac` / `get_paired_mac`.

Rust strings are modelled as `List Char`, byte buffers as `List Nat` whose
entries are below 256 wherever the Rust type is `u8`, and `Result<T, E>`
as `Except`.  Error strings are reproduced verbatim from the source.
-/

/- ### MAC address type (`src/mac.rs`) -/

/-- Models the Rust `struct MACAddress([u8; 6])`: 6 unsigned bytes,
most-significant first.  The `u8` and fixed-length invariants of the Rust
array type are captured by `MACAddress.WF`. -/
structure MACAddress where
  bytes : List Nat
deriving DecidableEq, Repr

/-- `MACAddress::from_bytes`. -/
def MACAddress.from_bytes (bytes : List Nat) : MACAddress :=
  ⟨bytes⟩

/-- `MACAddress::as_bytes`. -/
def MACAddress.as_bytes (m : MACAddress) : List Nat :=
  m.bytes

/-- The invariant the Rust type `[u8; 6]` enforces by construction:
exactly 6 bytes, each fitting in `u8`. -/
def MACAddress.WF (m : MACAddress) : Prop :=
  m.bytes.length = 6 ∧ ∀ b ∈ m.bytes, b < 256

instance (m : MACAddress) : Decidable m.WF := by
  unfold MACAddress.WF; infer_instance

/-- The value Rust's `char::to_digit(16)` gives each character (used
byte-wise by `u8::from_str_radix(_, 16)`): `0`-`9`, `a`-`f`, `A`-`F`. -/
def hexDigitVal (c : Char) : Option Nat :=
  if 48 ≤ c.toNat ∧ c.toNat ≤ 57 then some (c.toNat - 48)
  else if 97 ≤ c.toNat ∧ c.toNat ≤ 102 then some (c.toNat - 87)
  else if 65 ≤ c.toNat ∧ c.toNat ≤ 70 then some (c.toNat - 55)
  else none

/-- The digit-accumulation loop of Rust `u8::from_str_radix(_, 16)` for a
non-negative number: checked `acc * 16 + digit`, failing on a non-digit or
on overflow past `u8::MAX` (so exactly when the value would reach 256). -/
def parseHexDigitsPos (acc : Nat) : List Char → Option Nat
  | [] => some acc
  | c :: cs =>
    match hexDigitVal c with
    | none => none
    | some d =>
      if acc * 16 + d < 256 then parseHexDigitsPos (acc * 16 + d) cs
      else none

/-- Models Rust `u8::from_str_radix(s, 16)`: empty input fails; a single
`"+"` fails; a leading `+` is stripped; `-` is not special for an unsigned
type (the `-` simply fails as a non-digit); then digits accumulate with
overflow checking. -/
def from_str_radix16 : List Char → Option Nat
  | [] => none
  | c :: cs =>
    if c = '+' then
      if cs = [] then none else parseHexDigitsPos 0 cs
    else parseHexDigitsPos 0 (c :: cs)

/-- Models Rust `str::split(':')` on the character sequence: splits at every
colon, keeping empty segments, and yields one (possibly empty) segment even
for the empty input. -/
def splitColon : List Char → List (List Char)
  | [] => [[]]
  | c :: cs =>
    if c = ':' then [] :: splitColon cs
    else
      match splitColon cs with
      | [] => [[c]]
      | s :: ss => (c :: s) :: ss

/-- The per-segment loop of `MACAddress::from_string`: parse each
colon-separated segment with `u8::from_str_radix(_, 16)`, failing on the
first bad segment with the verbatim error message (1-based position and the
offending text). -/
def parseSegs (i : Nat) : List (List Char) → Except String (List Nat)
  | [] => .ok []
  | seg :: rest =>
    match from_str_radix16 seg with
    | none =>
      .error ("Invalid character at position #" ++ toString (i + 1)
        ++ " (\x27" ++ String.mk seg ++ "\x27)")
    | some b =>
      match parseSegs (i + 1) rest with
      | .error e => .error e
      | .ok bs => .ok (b :: bs)

/-- Models `MACAddress::from_string`: split on `':'`, require exactly 6
segments (else the verbatim count-mismatch error), then parse each segment
as a hex byte. -/
def MACAddress.from_string (mac : List Char) : Except String MACAddress :=
  let byte_strs := splitColon mac
  if byte_strs.length ≠ 6 then
    .error ("Invalid number of bytes. Expected 6 bytes, got "
      ++ toString byte_strs.length)
  else
    match parseSegs 0 byte_strs with
    | .error e => .error e
    | .ok bs => .ok (MACAddress.from_bytes bs)

/-- The uppercase hex digit Rust's `{:02X}` formatting uses for a value
below 16. -/
def hexDigitChar (n : Nat) : Char :=
  if n < 10 then Char.ofNat (48 + n) else Char.ofNat (55 + n)

/-- One byte rendered by `{:02X}`: exactly two uppercase hex digits (a byte
is below 256, so the width-2 zero-padding always yields two digits). -/
def formatByte (b : Nat) : List Char :=
  [hexDigitChar (b / 16), hexDigitChar (b % 16)]

/-- Models the `Display` implementation of `MACAddress`:
`"{:02X}:{:02X}:{:02X}:{:02X}:{:02X}:{:02X}"` over the six stored bytes.
The catch-all branch is unreachable for well-formed addresses (the Rust
array type always has 6 entries). -/
def MACAddress.format (m : MACAddress) : List Char :=
  match m.bytes with
  | [b0, b1, b2, b3, b4, b5] =>
    formatByte b0 ++ ':' :: (formatByte b1 ++ ':' :: (formatByte b2
      ++ ':' :: (formatByte b3 ++ ':' :: (formatByte b4 ++ ':' :: formatByte b5))))
  | _ => []

/-- A character is an uppercase hex digit (`0`-`9` or `A`-`F`). -/
def isUpperHexDigit (c : Char) : Bool :=
  (48 ≤ c.toNat && c.toNat ≤ 57) || (65 ≤ c.toNat && c.toNat ≤ 70)

/-- The shape claimed for parseable MAC strings: exactly 6 colon-separated
segments, each being exactly two hex digits. -/
def TwoHexPairSegments (s : List Char) : Prop :=
  (splitColon s).length = 6 ∧
    ∀ seg ∈ splitColon s, seg.length = 2 ∧ ∀ c ∈ seg, (hexDigitVal c).isSome = true

instance (s : List Char) : Decidable (TwoHexPairSegments s) := by
  unfold TwoHexPairSegments; infer_instance

/-- ASCII lowercasing of a character (`A`-`Z` mapped to `a`-`z`). -/
def charToLower (c : Char) : Char :=
  if 65 ≤ c.toNat ∧ c.toNat ≤ 90 then Char.ofNat (c.toNat + 32) else c

/-- ASCII uppercasing of a character (`a`-`z` mapped to `A`-`Z`). -/
def charToUpper (c : Char) : Char :=
  if 97 ≤ c.toNat ∧ c.toNat ≤ 122 then Char.ofNat (c.toNat - 32) else c

/- ### Device registry and matcher (`src/sixaxis.rs`) -/

/-- Models the Rust `struct USBDeviceId { vendor: u16, product: u16 }`. -/
structure USBDeviceId where
  vendor : Nat
  product : Nat
deriving DecidableEq, Repr

/-- Models `enum SixAxisProtocol { SixAxis, DualShock4 }`. -/
inductive SixAxisProtocol where
  | SixAxis
  | DualShock4
deriving DecidableEq, Repr

/-- Models `struct KnownDeviceRecord { name, id, protocol }`. -/
structure KnownDeviceRecord where
  name : String
  id : USBDeviceId
  protocol : SixAxisProtocol
deriving DecidableEq, Repr

/-- Models the `KNOWN_DEVICES` table of `src/sixaxis.rs`, verbatim. -/
def KNOWN_DEVICES : List KnownDeviceRecord :=
  [⟨"Sony PlayStation 3 Controller", ⟨0x054c, 0x0268⟩, .SixAxis⟩,
   ⟨"Sony Move Motion Controller", ⟨0x054c, 0x042f⟩, .SixAxis⟩,
   ⟨"Sony DualShock 4 Controller", ⟨0x054c, 0x05c4⟩, .DualShock4⟩]

/-- Models the Rust `struct SixAxisController { device, protocol }`, with the
opened HID handle represented by the (vendor, product) pair it was opened
with. -/
structure SixAxisController where
  device : USBDeviceId
  protocol : SixAxisProtocol
deriving DecidableEq, Repr

/-- The per-device step of `SixAxisController::open` when no explicit device
ID is given: the loop over `KNOWN_DEVICES` that sets `should_open` and
adopts the registry record's protocol on an exact (vendor, product) match,
modelled as the same left fold over the table. -/
def registryScan (d : USBDeviceId) (protocol : Option SixAxisProtocol) :
    Bool × Option SixAxisProtocol :=
  KNOWN_DEVICES.foldl
    (fun acc kd =>
      if d.vendor = kd.id.vendor ∧ d.product = kd.id.product then (true, some kd.protocol)
      else acc)
    (false, protocol)

/-- The device loop of `SixAxisController::open`: for each enumerated
device, decide `should_open` (by the explicit filter if one was supplied,
by the registry otherwise); on the first device to open, require a resolved
protocol (else the verbatim error) and construct the controller.  hidapi
enumeration and `HidApi::open` themselves are modelled as succeeding. -/
def openLoop (device_id : Option USBDeviceId) (protocol : Option SixAxisProtocol) :
    List USBDeviceId → Except String SixAxisController
  | [] => .error "No supported devices found."
  | d :: rest =>
    let m : Bool × Option SixAxisProtocol :=
      match device_id with
      | some fid =>
        if d.vendor = fid.vendor ∧ d.product = fid.product then (true, protocol)
        else (false, protocol)
      | none => registryScan d protocol
    if m.1 then
      match m.2 with
      | none => .error "Device found, but no protocol specified."
      | some p => .ok ⟨d, p⟩
    else openLoop device_id protocol rest

/-- Models `SixAxisController::open` as a function of the enumerated device
list (the transport capability): iterate the device loop over it. -/
def openController (devices : List USBDeviceId) (device_id : Option USBDeviceId)
    (protocol : Option SixAxisProtocol) : Except String SixAxisController :=
  openLoop device_id protocol devices

/- ### Feature-report codec (`src/sixaxis.rs`) -/

/-- Models `buf[start..start+src.len()].copy_from_slice(&src)` on a list:
the source replaces the slice of the buffer starting at `start`. -/
def setSlice (buf : List Nat) (start : Nat) (src : List Nat) : List Nat :=
  buf.take start ++ src ++ buf.drop (start + src.length)

/-- Models hidapi `get_feature_report` filling the request buffer with the
device's reply: the first `reply.length` bytes of the buffer (at most the
buffer's size) are overwritten, the rest keep their prior contents, and the
buffer's size never changes — there is no length information other than the
ignored return value. -/
def overwrite (buf reply : List Nat) : List Nat :=
  reply.take buf.length ++ buf.drop (min reply.length buf.length)

/-- Models `SixAxisController::get_paired_mac` as a function of the
protocol and of the reply bytes the device sends back, for the case where
the transport call itself succeeds: the request buffer is prepared with the
report ID, `get_feature_report` overwrites it with the reply, and the MAC
bytes are extracted from the fixed buffer (`[2..8]` for SixAxis, `[10..16]`
reversed for DualShock4). -/
def get_paired_mac (p : SixAxisProtocol) (reply : List Nat) :
    Except String MACAddress :=
  match p with
  | .SixAxis =>
    let report := (List.replicate 8 0).set 0 0xf5
    let report := overwrite report reply
    let mac_bytes := (report.drop 2).take 6
    .ok (MACAddress.from_bytes mac_bytes)
  | .DualShock4 =>
    let report := (List.replicate 16 0).set 0 0x12
    let report := overwrite report reply
    let mac_bytes := (report.drop 10).take 6
    .ok (MACAddress.from_bytes mac_bytes.reverse)

/-- Models the report buffer `SixAxisController::set_paired_mac` builds and
sends (the pure part of the function; `send_feature_report` is the
transport).  SixAxis: 8 bytes, ID `0xf5`, reserved zero, MAC as stored at
offset 2.  DualShock4: 23 bytes, ID `0x13`, reversed MAC at offset 1, the
rest left as the zero fill. -/
def set_paired_mac_report (p : SixAxisProtocol) (mac : MACAddress) : List Nat :=
  match p with
  | .SixAxis =>
    let report := List.replicate 8 0
    let report := report.set 0 0xf5
    let report := report.set 1 0
    setSlice report 2 mac.as_bytes
  | .DualShock4 =>
    let mac_bytes := mac.as_bytes.reverse
    let report := List.replicate 23 0
    let report := report.set 0 0x13
    setSlice report 1 mac_bytes

/- ### Helper lemmas: splitting -/

lemma splitColon_ne_nil (s : List Char) : splitColon s ≠ [] := by
  cases s with
  | nil => simp [splitColon]
  | cons c cs =>
    simp only [splitColon]
    split
    · simp
    · split <;> simp

lemma splitColon_no_colon (s : List Char) (h : ∀ c ∈ s, c ≠ ':') :
    splitColon s = [s] := by
  induction s with
  | nil => rfl
  | cons c cs ih =>
    have hc : c ≠ ':' := h c (by simp)
    have ih' := ih (fun x hx => h x (by simp [hx]))
    simp only [splitColon, if_neg hc, ih']

lemma splitColon_append (s t : List Char) (h : ∀ c ∈ s, c ≠ ':') :
    splitColon (s ++ ':' :: t) = s :: splitColon t := by
  induction s with
  | nil => simp [splitColon]
  | cons c cs ih =>
    have hc : c ≠ ':' := h c (by simp)
    have ih' := ih (fun x hx => h x (by simp [hx]))
    simp only [List.cons_append, splitColon, if_neg hc, List.append_eq, ih']

lemma splitColon_map (f : Char → Char) (hf : ∀ c, f c = ':' ↔ c = ':')
    (s : List Char) : splitColon (s.map f) = (splitColon s).map (List.map f) := by
  induction s with
  | nil =>
    have : f ':' = ':' := (hf ':').mpr rfl
    simp [splitColon]
  | cons c cs ih =>
    by_cases hc : c = ':'
    · subst hc
      have : f ':' = ':' := (hf ':').mpr rfl
      simp [splitColon, this, ih]
    · have hfc : f c ≠ ':' := fun hx => hc ((hf c).mp hx)
      simp only [List.map_cons, splitColon, if_neg hc, if_neg hfc, ih]
      cases hs : splitColon cs with
      | nil => exact absurd hs (splitColon_ne_nil cs)
      | cons s0 ss => simp

/- ### Helper lemmas: hex digits -/

lemma hexDigitVal_hexDigitChar : ∀ n < 16, hexDigitVal (hexDigitChar n) = some n := by
  decide

lemma hexDigitChar_ne_colon : ∀ n < 16, hexDigitChar n ≠ ':' := by
  decide

lemma hexDigitChar_ne_plus : ∀ n < 16, hexDigitChar n ≠ '+' := by
  decide

lemma isUpperHexDigit_hexDigitChar : ∀ n < 16, isUpperHexDigit (hexDigitChar n) = true := by
  decide

lemma from_str_radix16_pair (c1 c2 : Char) (n1 n2 : Nat)
    (h1 : hexDigitVal c1 = some n1) (h2 : hexDigitVal c2 = some n2)
    (hp : c1 ≠ '+') (hn1 : n1 < 16) (hn2 : n2 < 16) :
    from_str_radix16 [c1, c2] = some (n1 * 16 + n2) := by
  have hb : n1 * 16 + n2 < 256 := by omega
  simp only [from_str_radix16, if_neg hp, parseHexDigitsPos, h1, h2]
  rw [if_pos (by omega : 0 * 16 + n1 < 256)]
  simp only [Nat.zero_mul, Nat.zero_add, parseHexDigitsPos, h2, if_pos hb]

lemma from_str_radix16_formatByte (b : Nat) (hb : b < 256) :
    from_str_radix16 (formatByte b) = some b := by
  have hq : b / 16 < 16 := by omega
  have hr : b % 16 < 16 := by omega
  have := from_str_radix16_pair (hexDigitChar (b / 16)) (hexDigitChar (b % 16))
    (b / 16) (b % 16) (hexDigitVal_hexDigitChar _ hq) (hexDigitVal_hexDigitChar _ hr)
    (hexDigitChar_ne_plus _ hq) hq hr
  rw [formatByte, this]
  congr 1
  omega

/- ### Helper lemmas: case mapping of hex digits -/

lemma hexDigitVal_charToLower (c : Char) (n : Nat) (h : hexDigitVal c = some n) :
    hexDigitVal (charToLower c) = some n := by
  unfold hexDigitVal at h
  unfold charToLower
  split_ifs at h with h1 h2 h3
  · rw [if_neg (by omega)]
    rw [hexDigitVal, if_pos h1]
    exact h
  · rw [if_neg (by omega)]
    rw [hexDigitVal, if_neg h1, if_pos h2]
    exact h
  · rw [if_pos (by omega)]
    injection h with hv
    subst hv
    obtain ⟨ha, hb⟩ := h3
    generalize hg : c.toNat = t at ha hb ⊢
    interval_cases t <;> decide

lemma hexDigitVal_charToUpper (c : Char) (n : Nat) (h : hexDigitVal c = some n) :
    hexDigitVal (charToUpper c) = some n := by
  unfold hexDigitVal at h
  unfold charToUpper
  split_ifs at h with h1 h2 h3
  · rw [if_neg (by omega)]
    rw [hexDigitVal, if_pos h1]
    exact h
  · rw [if_pos (by omega)]
    injection h with hv
    subst hv
    obtain ⟨ha, hb⟩ := h2
    generalize hg : c.toNat = t at ha hb ⊢
    interval_cases t <;> decide
  · rw [if_neg (by omega)]
    rw [hexDigitVal, if_neg h1, if_neg h2, if_pos h3]
    exact h

lemma charToLower_eq_colon_iff (c : Char) : charToLower c = ':' ↔ c = ':' := by
  unfold charToLower
  split_ifs with h1
  · constructor
    · intro hx
      exfalso
      obtain ⟨ha, hb⟩ := h1
      generalize hg : c.toNat = t at ha hb hx
      interval_cases t <;> exact absurd hx (by decide)
    · intro hx
      subst hx
      exact absurd h1 (by decide)
  · exact Iff.rfl

lemma charToUpper_eq_colon_iff (c : Char) : charToUpper c = ':' ↔ c = ':' := by
  unfold charToUpper
  split_ifs with h1
  · constructor
    · intro hx
      exfalso
      obtain ⟨ha, hb⟩ := h1
      generalize hg : c.toNat = t at ha hb hx
      interval_cases t <;> exact absurd hx (by decide)
    · intro hx
      subst hx
      exact absurd h1 (by decide)
  · exact Iff.rfl

lemma charToLower_ne_plus (c : Char) (n : Nat) (h : hexDigitVal c = some n) :
    charToLower c ≠ '+' := by
  unfold hexDigitVal at h
  unfold charToLower
  split_ifs at h with h1 h2 h3
  · rw [if_neg (by omega)]
    intro hx
    subst hx
    exact absurd h1 (by decide)
  · rw [if_neg (by omega)]
    intro hx
    subst hx
    exact absurd h2 (by decide)
  · rw [if_pos (by omega)]
    obtain ⟨ha, hb⟩ := h3
    generalize hg : c.toNat = t at ha hb ⊢
    interval_cases t <;> decide

lemma charToUpper_ne_plus (c : Char) (n : Nat) (h : hexDigitVal c = some n) :
    charToUpper c ≠ '+' := by
  unfold hexDigitVal at h
  unfold charToUpper
  split_ifs at h with h1 h2 h3
  · rw [if_neg (by omega)]
    intro hx
    subst hx
    exact absurd h1 (by decide)
  · rw [if_pos (by omega)]
    obtain ⟨ha, hb⟩ := h2
    generalize hg : c.toNat = t at ha hb ⊢
    interval_cases t <;> decide
  · rw [if_neg (by omega)]
    intro hx
    subst hx
    exact absurd h3 (by decide)

/- ### Helper lemmas: segment parsing -/

lemma hexDigitVal_lt_16 (c : Char) (n : Nat) (h : hexDigitVal c = some n) : n < 16 := by
  unfold hexDigitVal at h
  split_ifs at h with h1 h2 h3 <;> (injection h with hv; omega)

lemma ne_plus_of_hexDigitVal (c : Char) (n : Nat) (h : hexDigitVal c = some n) :
    c ≠ '+' := by
  intro hx
  subst hx
  rw [show hexDigitVal '+' = none from rfl] at h
  exact Option.noConfusion h

lemma list_length_two {α : Type} (l : List α) (h : l.length = 2) :
    ∃ a0 a1, l = [a0, a1] := by
  rcases l with _ | ⟨a0, _ | ⟨a1, _ | ⟨a2, t⟩⟩⟩ <;> simp_all

lemma list_length_six {α : Type} (l : List α) (h : l.length = 6) :
    ∃ a0 a1 a2 a3 a4 a5, l = [a0, a1, a2, a3, a4, a5] := by
  rcases l with _ | ⟨a0, _ | ⟨a1, _ | ⟨a2, _ | ⟨a3, _ | ⟨a4, _ | ⟨a5, _ | ⟨a6, t⟩⟩⟩⟩⟩⟩⟩ <;>
    simp_all

lemma parseSegs_ok_iff (segs : List (List Char)) : ∀ i : Nat,
    (∃ bs, parseSegs i segs = .ok bs) ↔
      ∀ seg ∈ segs, (from_str_radix16 seg).isSome = true := by
  induction segs with
  | nil =>
    intro i
    simp [parseSegs]
  | cons seg rest ih =>
    intro i
    constructor
    · rintro ⟨bs, hbs⟩ s hs
      cases hfs : from_str_radix16 seg with
      | none => simp [parseSegs, hfs] at hbs
      | some b =>
        simp only [parseSegs, hfs] at hbs
        cases hps : parseSegs (i + 1) rest with
        | error e => simp [hps] at hbs
        | ok bs2 =>
          rcases List.mem_cons.mp hs with rfl | hs'
          · simp [hfs]
          · exact ((ih (i + 1)).mp ⟨bs2, hps⟩) s hs'
    · intro hall
      obtain ⟨b, hb⟩ := Option.isSome_iff_exists.mp (hall seg (by simp))
      obtain ⟨bs, hbs⟩ := (ih (i + 1)).mpr (fun s hs => hall s (by simp [hs]))
      exact ⟨b :: bs, by simp [parseSegs, hb, hbs]⟩

lemma parseSegs_first_error (segs : List (List Char)) : ∀ i j : Nat,
    j < segs.length →
    (∀ k, k < j → (from_str_radix16 (segs.getD k [])).isSome = true) →
    from_str_radix16 (segs.getD j []) = none →
    parseSegs i segs = .error ("Invalid character at position #" ++ toString (i + j + 1)
      ++ " (\x27" ++ String.mk (segs.getD j []) ++ "\x27)") := by
  induction segs with
  | nil =>
    intro i j hj
    simp at hj
  | cons seg rest ih =>
    intro i j hj hprev hfail
    cases j with
    | zero =>
      simp only [List.getD_cons_zero] at hfail
      simp [parseSegs, hfail]
    | succ j' =>
      obtain ⟨b, hb⟩ := Option.isSome_iff_exists.mp
        (by simpa using hprev 0 (Nat.succ_pos j'))
      have hrec := ih (i + 1) j' (by simpa using hj)
        (fun k hk => by simpa using hprev (k + 1) (by omega))
        (by simpa using hfail)
      have harith : i + 1 + j' + 1 = i + (j' + 1) + 1 := by omega
      rw [harith] at hrec
      simp [parseSegs, hb, hrec]

lemma from_string_ok_iff (s : List Char) :
    (∃ m, MACAddress.from_string s = .ok m) ↔
      ((splitColon s).length = 6 ∧
        ∀ seg ∈ splitColon s, (from_str_radix16 seg).isSome = true) := by
  by_cases hlen : (splitColon s).length = 6
  · have hiff := parseSegs_ok_iff (splitColon s) 0
    cases hps : parseSegs 0 (splitColon s) with
    | error e =>
      rw [hps] at hiff
      simp only [MACAddress.from_string, hlen]
      simp only [hps]
      simp at hiff ⊢
      exact hiff
    | ok bs =>
      rw [hps] at hiff
      simp only [MACAddress.from_string, hlen]
      simp only [hps]
      simp at hiff ⊢
      exact hiff
  · simp only [MACAddress.from_string, if_pos hlen]
    simp [hlen]

/- ### Claim C3 -/

/-- C3 (counterexample): the claim "parse succeeds exactly when the input
splits into 6 colon-separated segments each parsing as a 2-hex-digit byte"
is false as stated: `"0:0:0:0:0:0"` has six segments of a single hex digit
each, which is not the claimed 2-hex-digit shape, yet `from_string`
accepts it (Rust `u8::from_str_radix` accepts any 1-or-more-digit string
whose value fits a byte). -/
theorem from_string_accepts_one_digit_segments :
    MACAddress.from_string ("0:0:0:0:0:0".toList)
        = .ok (MACAddress.from_bytes [0, 0, 0, 0, 0, 0])
      ∧ ¬ TwoHexPairSegments ("0:0:0:0:0:0".toList) :=
  ⟨rfl, by decide⟩

/-- C3 (amended): `from_string` succeeds exactly when the input splits into
6 colon-separated segments each accepted by `u8::from_str_radix(_, 16)`
(one or more hex digits, optionally after a leading `+`, value at most
255); a segment count other than 6 fails with the count-mismatch error
naming expected (6) and actual count, and with 6 segments the first
non-parsing segment at 0-based index `j` fails with the error naming the
1-based position `j + 1` and the offending text; in particular
`"AA:BB:CC"` reports 6 vs 3 and `"ZZ:00:00:00:00:00"` reports position 1
and `"ZZ"`. -/
theorem from_string_success_and_error_spec (s : List Char) :
    ((∃ m, MACAddress.from_string s = .ok m) ↔
      ((splitColon s).length = 6 ∧
        ∀ seg ∈ splitColon s, (from_str_radix16 seg).isSome = true))
    ∧ ((splitColon s).length ≠ 6 →
      MACAddress.from_string s = .error
        ("Invalid number of bytes. Expected 6 bytes, got "
          ++ toString (splitColon s).length))
    ∧ ((splitColon s).length = 6 → ∀ j, j < 6 →
      (∀ k, k < j → (from_str_radix16 ((splitColon s).getD k [])).isSome = true) →
      from_str_radix16 ((splitColon s).getD j []) = none →
      MACAddress.from_string s = .error
        ("Invalid character at position #" ++ toString (j + 1)
          ++ " (\x27" ++ String.mk ((splitColon s).getD j []) ++ "\x27)"))
    ∧ MACAddress.from_string ("AA:BB:CC".toList)
        = .error "Invalid number of bytes. Expected 6 bytes, got 3"
    ∧ MACAddress.from_string ("ZZ:00:00:00:00:00".toList)
        = .error "Invalid character at position #1 (\x27ZZ\x27)" := by
  refine ⟨from_string_ok_iff s, ?_, ?_, rfl, rfl⟩
  · intro hlen
    simp [MACAddress.from_string, if_pos hlen]
  · intro h6 j hj hprev hfail
    have herr := parseSegs_first_error (splitColon s) 0 j (by omega) hprev hfail
    have harith : 0 + j + 1 = j + 1 := by omega
    rw [harith] at herr
    simp [MACAddress.from_string, h6, herr]

/-- C3 (witness): the amended theorem applied at `"ZZ:00:00:00:00:00"`,
hitting the first-invalid-segment error branch at position 1. -/
theorem from_string_success_and_error_spec_witness :
    MACAddress.from_string ("ZZ:00:00:00:00:00".toList)
      = .error ("Invalid character at position #" ++ toString (0 + 1)
        ++ " (\x27" ++ String.mk ((splitColon ("ZZ:00:00:00:00:00".toList)).getD 0 [])
        ++ "\x27)") :=
  (from_string_success_and_error_spec ("ZZ:00:00:00:00:00".toList)).2.2.1
    (by decide) 0 (by decide) (fun k hk => absurd hk (by omega)) (by decide)

/- ### Claim C4 -/

lemma formatByte_no_colon (b : Nat) (hb : b < 256) : ∀ c ∈ formatByte b, c ≠ ':' := by
  intro c hc
  rcases List.mem_pair.mp (by simpa [formatByte] using hc) with rfl | rfl
  · exact hexDigitChar_ne_colon _ (by omega)
  · exact hexDigitChar_ne_colon _ (by omega)

lemma splitColon_format (b0 b1 b2 b3 b4 b5 : Nat)
    (h : ∀ b ∈ [b0, b1, b2, b3, b4, b5], b < 256) :
    splitColon (MACAddress.from_bytes [b0, b1, b2, b3, b4, b5]).format
      = [formatByte b0, formatByte b1, formatByte b2, formatByte b3,
         formatByte b4, formatByte b5] := by
  have n0 := formatByte_no_colon b0 (h b0 (by simp))
  have n1 := formatByte_no_colon b1 (h b1 (by simp))
  have n2 := formatByte_no_colon b2 (h b2 (by simp))
  have n3 := formatByte_no_colon b3 (h b3 (by simp))
  have n4 := formatByte_no_colon b4 (h b4 (by simp))
  have n5 := formatByte_no_colon b5 (h b5 (by simp))
  show splitColon (MACAddress.format ⟨[b0, b1, b2, b3, b4, b5]⟩) = _
  rw [MACAddress.format]
  rw [splitColon_append _ _ n0, splitColon_append _ _ n1, splitColon_append _ _ n2,
    splitColon_append _ _ n3, splitColon_append _ _ n4, splitColon_no_colon _ n5]

/-- C4: for every well-formed `MACAddress`, `format` yields six
two-character uppercase-hex segments joined by `':'` (witnessed by
`splitColon` recovering exactly the six `formatByte` renderings), and
`from_string` of the formatted text succeeds and returns the same address
byte for byte. -/
theorem format_from_string_round_trip (m : MACAddress) (h : m.WF) :
    splitColon m.format = m.bytes.map formatByte
    ∧ (∀ b ∈ m.bytes, (formatByte b).length = 2
        ∧ ∀ c ∈ formatByte b, isUpperHexDigit c = true)
    ∧ MACAddress.from_string m.format = .ok m := by
  obtain ⟨hlen, hbnd⟩ := h
  obtain ⟨bs⟩ := m
  simp only [MACAddress.bytes] at hlen hbnd ⊢
  obtain ⟨b0, b1, b2, b3, b4, b5, rfl⟩ := list_length_six bs hlen
  have hsplit := splitColon_format b0 b1 b2 b3 b4 b5 hbnd
  refine ⟨hsplit, ?_, ?_⟩
  · intro b hb
    have hb256 : b < 256 := hbnd b hb
    refine ⟨rfl, ?_⟩
    intro c hc
    rcases List.mem_pair.mp (by simpa [formatByte] using hc) with rfl | rfl
    · exact isUpperHexDigit_hexDigitChar _ (by omega)
    · exact isUpperHexDigit_hexDigitChar _ (by omega)
  · have e0 := from_str_radix16_formatByte b0 (hbnd b0 (by simp))
    have e1 := from_str_radix16_formatByte b1 (hbnd b1 (by simp))
    have e2 := from_str_radix16_formatByte b2 (hbnd b2 (by simp))
    have e3 := from_str_radix16_formatByte b3 (hbnd b3 (by simp))
    have e4 := from_str_radix16_formatByte b4 (hbnd b4 (by simp))
    have e5 := from_str_radix16_formatByte b5 (hbnd b5 (by simp))
    simp only [MACAddress.from_bytes] at hsplit
    simp only [MACAddress.from_string, hsplit]
    simp [parseSegs, e0, e1, e2, e3, e4, e5, MACAddress.from_bytes]

/-- C4 (witness): the round trip evaluated at the concrete address
`12:34:AB:CD:EF:01`. -/
theorem format_from_string_round_trip_witness :
    splitColon (MACAddress.from_bytes [0x12, 0x34, 0xab, 0xcd, 0xef, 0x01]).format
        = (MACAddress.from_bytes [0x12, 0x34, 0xab, 0xcd, 0xef, 0x01]).bytes.map formatByte
    ∧ (∀ b ∈ (MACAddress.from_bytes [0x12, 0x34, 0xab, 0xcd, 0xef, 0x01]).bytes,
        (formatByte b).length = 2 ∧ ∀ c ∈ formatByte b, isUpperHexDigit c = true)
    ∧ MACAddress.from_string (MACAddress.from_bytes [0x12, 0x34, 0xab, 0xcd, 0xef, 0x01]).format
        = .ok (MACAddress.from_bytes [0x12, 0x34, 0xab, 0xcd, 0xef, 0x01]) :=
  format_from_string_round_trip (MACAddress.from_bytes [0x12, 0x34, 0xab, 0xcd, 0xef, 0x01])
    (by decide)

/- ### Claim C10 -/

lemma parseSegs_map (f : Char → Char)
    (hhex : ∀ c n, hexDigitVal c = some n → hexDigitVal (f c) = some n)
    (hplus : ∀ c n, hexDigitVal c = some n → f c ≠ '+')
    (segs : List (List Char)) : ∀ i : Nat,
    (∀ seg ∈ segs, seg.length = 2 ∧ ∀ c ∈ seg, (hexDigitVal c).isSome = true) →
    parseSegs i (segs.map (List.map f)) = parseSegs i segs
      ∧ ∃ bs, parseSegs i segs = .ok bs := by
  induction segs with
  | nil =>
    intro i _
    exact ⟨rfl, [], rfl⟩
  | cons seg rest ih =>
    intro i hsegs
    obtain ⟨hlen2, hhx⟩ := hsegs seg (by simp)
    obtain ⟨c1, c2, rfl⟩ := list_length_two seg hlen2
    obtain ⟨n1, hn1⟩ := Option.isSome_iff_exists.mp (hhx c1 (by simp))
    obtain ⟨n2, hn2⟩ := Option.isSome_iff_exists.mp (hhx c2 (by simp))
    have hb1 := hexDigitVal_lt_16 c1 n1 hn1
    have hb2 := hexDigitVal_lt_16 c2 n2 hn2
    have hfr : from_str_radix16 [c1, c2] = some (n1 * 16 + n2) :=
      from_str_radix16_pair c1 c2 n1 n2 hn1 hn2
        (ne_plus_of_hexDigitVal c1 n1 hn1) hb1 hb2
    have hfr2 : from_str_radix16 [f c1, f c2] = some (n1 * 16 + n2) :=
      from_str_radix16_pair (f c1) (f c2) n1 n2 (hhex c1 n1 hn1) (hhex c2 n2 hn2)
        (hplus c1 n1 hn1) hb1 hb2
    obtain ⟨heq, bs, hbs⟩ := ih (i + 1) (fun s hs => hsegs s (by simp [hs]))
    rw [hbs] at heq
    refine ⟨?_, (n1 * 16 + n2) :: bs, ?_⟩
    · simp [parseSegs, hfr, hfr2, heq, hbs]
    · simp [parseSegs, hfr, hbs]

lemma from_string_map_preserving (f : Char → Char)
    (hcolon : ∀ c, f c = ':' ↔ c = ':')
    (hhex : ∀ c n, hexDigitVal c = some n → hexDigitVal (f c) = some n)
    (hplus : ∀ c n, hexDigitVal c = some n → f c ≠ '+')
    (s : List Char) (hs : TwoHexPairSegments s) :
    MACAddress.from_string (s.map f) = MACAddress.from_string s
      ∧ ∃ m, MACAddress.from_string s = .ok m := by
  obtain ⟨hlen, hsegs⟩ := hs
  have hsplit := splitColon_map f hcolon s
  obtain ⟨heq, bs, hbs⟩ := parseSegs_map f hhex hplus (splitColon s) 0 hsegs
  have hlen2 : (splitColon (s.map f)).length = 6 := by
    rw [hsplit, List.length_map]
    exact hlen
  constructor
  · simp only [MACAddress.from_string, hsplit, List.length_map, hlen, hlen2]
    rw [heq]
  · simp only [MACAddress.from_string, hlen, hbs]
    exact ⟨MACAddress.from_bytes bs, by simp⟩

/-- C10: MAC parsing is case-insensitive on hex digits: for every string of
6 colon-separated two-hex-digit segments, parsing the lowercase form
succeeds and yields exactly the `MACAddress` obtained from the uppercase
form. -/
theorem from_string_case_insensitive (s : List Char) (hs : TwoHexPairSegments s) :
    MACAddress.from_string (s.map charToLower) = MACAddress.from_string (s.map charToUpper)
      ∧ ∃ m, MACAddress.from_string (s.map charToLower) = .ok m := by
  obtain ⟨hl, m, hm⟩ := from_string_map_preserving charToLower charToLower_eq_colon_iff
    hexDigitVal_charToLower charToLower_ne_plus s hs
  obtain ⟨hu, _⟩ := from_string_map_preserving charToUpper charToUpper_eq_colon_iff
    hexDigitVal_charToUpper charToUpper_ne_plus s hs
  exact ⟨hl.trans hu.symm, m, hl.trans hm⟩

/-- C10 (witness): case-insensitivity evaluated at the mixed-case address
text `aB:0f:00:FF:12:34`. -/
theorem from_string_case_insensitive_witness :
    MACAddress.from_string (("aB:0f:00:FF:12:34".toList).map charToLower)
        = MACAddress.from_string (("aB:0f:00:FF:12:34".toList).map charToUpper)
      ∧ ∃ m, MACAddress.from_string (("aB:0f:00:FF:12:34".toList).map charToLower) = .ok m :=
  from_string_case_insensitive ("aB:0f:00:FF:12:34".toList) (by decide)

/- ### Claims C1 and C2 -/

/-- C1 (code evaluation at the failing input): the get-paired-MAC decode
step performs no length validation at all.  A 7-byte SixAxis reply (one
byte short of the expected 8) is silently accepted: the stale final byte
of the request buffer (0) is returned as the last MAC byte.  Likewise a
15-byte DualShock4 reply (expected 16) is silently accepted with a stale
byte.  The claimed `UnexpectedResponseLength` failure does not exist in
the code. -/
theorem get_paired_mac_no_length_validation :
    get_paired_mac .SixAxis [0xf5, 0, 1, 2, 3, 4, 5]
        = .ok (MACAddress.from_bytes [1, 2, 3, 4, 5, 0])
    ∧ get_paired_mac .DualShock4 [0x12, 0, 0, 0, 0, 0, 0, 0, 0, 0, 1, 2, 3, 4, 5]
        = .ok (MACAddress.from_bytes [0, 5, 4, 3, 2, 1]) :=
  ⟨rfl, rfl⟩

/-- C2 (code evaluation at the failing input): the SixAxis decode step
performs no header validation: a reply whose first two bytes are
`{0x00, 0x07}` rather than the claimed mandatory `{0xF5, 0x00}` is still
accepted and produces a MACAddress.  The claimed
`UnexpectedResponseHeader` failure does not exist in the code. -/
theorem get_paired_mac_no_header_validation :
    get_paired_mac .SixAxis [0, 7, 0xaa, 0xbb, 0xcc, 0xdd, 0xee, 0xff]
      = .ok (MACAddress.from_bytes [0xaa, 0xbb, 0xcc, 0xdd, 0xee, 0xff]) :=
  rfl

/- ### Claim C5 -/

/-- C5: for every well-formed `MACAddress`, the encoded set-report is
exactly: for SixAxis an 8-byte buffer `0xF5, 0x00` followed by the six MAC
bytes as stored; for DualShock4 a 23-byte buffer `0x13` followed by the
six MAC bytes reversed, with every byte at offsets 7..23 zero. -/
theorem set_paired_mac_report_layout (m : MACAddress) (h : m.WF) :
    set_paired_mac_report .SixAxis m = 0xf5 :: 0 :: m.as_bytes
    ∧ (set_paired_mac_report .SixAxis m).length = 8
    ∧ set_paired_mac_report .DualShock4 m
        = 0x13 :: (m.as_bytes.reverse ++ List.replicate 16 0)
    ∧ (set_paired_mac_report .DualShock4 m).length = 23
    ∧ ((set_paired_mac_report .DualShock4 m).take 7).drop 1 = m.as_bytes.reverse
    ∧ ∀ i, 7 ≤ i → i < 23 → (set_paired_mac_report .DualShock4 m).getD i 1 = 0 := by
  obtain ⟨hlen, _⟩ := h
  obtain ⟨bs⟩ := m
  simp only [MACAddress.bytes] at hlen
  obtain ⟨b0, b1, b2, b3, b4, b5, rfl⟩ := list_length_six bs hlen
  refine ⟨rfl, rfl, rfl, rfl, rfl, ?_⟩
  intro i h7 h23
  interval_cases i <;> rfl

/-- C5 (witness): the layout evaluated at the address `01:02:03:04:05:06`. -/
theorem set_paired_mac_report_layout_witness :
    set_paired_mac_report .SixAxis (MACAddress.from_bytes [1, 2, 3, 4, 5, 6])
        = 0xf5 :: 0 :: (MACAddress.from_bytes [1, 2, 3, 4, 5, 6]).as_bytes
    ∧ (set_paired_mac_report .SixAxis (MACAddress.from_bytes [1, 2, 3, 4, 5, 6])).length = 8
    ∧ set_paired_mac_report .DualShock4 (MACAddress.from_bytes [1, 2, 3, 4, 5, 6])
        = 0x13 :: ((MACAddress.from_bytes [1, 2, 3, 4, 5, 6]).as_bytes.reverse
            ++ List.replicate 16 0)
    ∧ (set_paired_mac_report .DualShock4 (MACAddress.from_bytes [1, 2, 3, 4, 5, 6])).length = 23
    ∧ ((set_paired_mac_report .DualShock4 (MACAddress.from_bytes [1, 2, 3, 4, 5, 6])).take 7).drop 1
        = (MACAddress.from_bytes [1, 2, 3, 4, 5, 6]).as_bytes.reverse
    ∧ ∀ i, 7 ≤ i → i < 23 →
        (set_paired_mac_report .DualShock4 (MACAddress.from_bytes [1, 2, 3, 4, 5, 6])).getD i 1 = 0 :=
  set_paired_mac_report_layout (MACAddress.from_bytes [1, 2, 3, 4, 5, 6]) (by decide)

/- ### Claim C6 -/

lemma overwrite_of_length_eq (buf reply : List Nat) (h : reply.length = buf.length) :
    overwrite buf reply = reply := by
  unfold overwrite
  rw [h, Nat.min_self, List.drop_length, List.append_nil, ← h, List.take_length]

/-- C6: for every well-formed `MACAddress`, taking the reversed MAC bytes
the DualShock4 set-report carries at offsets 1..7 and placing them at
offsets 10..16 of a 16-byte DualShock4 get-report reply (after any 10-byte
prefix) makes the DualShock4 decode return the same address. -/
theorem ds4_wire_round_trip (m : MACAddress) (pre : List Nat) (h : m.WF)
    (hpre : pre.length = 10) :
    get_paired_mac .DualShock4
      (pre ++ ((set_paired_mac_report .DualShock4 m).take 7).drop 1) = .ok m := by
  obtain ⟨hlen, _⟩ := h
  obtain ⟨bs⟩ := m
  simp only [MACAddress.bytes] at hlen
  obtain ⟨b0, b1, b2, b3, b4, b5, rfl⟩ := list_length_six bs hlen
  have hwire : ((set_paired_mac_report .DualShock4 ⟨[b0, b1, b2, b3, b4, b5]⟩).take 7).drop 1
      = [b5, b4, b3, b2, b1, b0] := rfl
  rw [hwire]
  simp only [get_paired_mac]
  rw [overwrite_of_length_eq _ _ (by simp [hpre])]
  rw [show (10 : Nat) = pre.length from hpre.symm, List.drop_left]
  rfl

/-- C6 (witness): the wire round trip evaluated at `01:02:03:04:05:06`
with an all-zero 10-byte reply prefix. -/
theorem ds4_wire_round_trip_witness :
    get_paired_mac .DualShock4
      (List.replicate 10 0
        ++ ((set_paired_mac_report .DualShock4 (MACAddress.from_bytes [1, 2, 3, 4, 5, 6])).take 7).drop 1)
      = .ok (MACAddress.from_bytes [1, 2, 3, 4, 5, 6]) :=
  ds4_wire_round_trip (MACAddress.from_bytes [1, 2, 3, 4, 5, 6]) (List.replicate 10 0)
    (by decide) (by decide)

/- ### Claim C7 -/

lemma openLoop_explicit_no_protocol (fid : USBDeviceId) :
    ∀ devices : List USBDeviceId, fid ∈ devices →
    openLoop (some fid) none devices = .error "Device found, but no protocol specified." := by
  intro devices
  induction devices with
  | nil => intro h; simp at h
  | cons d rest ih =>
    intro hmem
    by_cases hd : d.vendor = fid.vendor ∧ d.product = fid.product
    · simp [openLoop, hd]
    · have hrest : fid ∈ rest := by
        rcases List.mem_cons.mp hmem with rfl | hr
        · exact absurd ⟨rfl, rfl⟩ hd
        · exact hr
      simp [openLoop, hd, ih hrest]

lemma openLoop_explicit_with_protocol (fid : USBDeviceId) (p : SixAxisProtocol) :
    ∀ devices : List USBDeviceId, fid ∈ devices →
    ∃ c, openLoop (some fid) (some p) devices = .ok c ∧ c.protocol = p := by
  intro devices
  induction devices with
  | nil => intro h; simp at h
  | cons d rest ih =>
    intro hmem
    by_cases hd : d.vendor = fid.vendor ∧ d.product = fid.product
    · exact ⟨⟨d, p⟩, by simp [openLoop, hd], rfl⟩
    · have hrest : fid ∈ rest := by
        rcases List.mem_cons.mp hmem with rfl | hr
        · exact absurd ⟨rfl, rfl⟩ hd
        · exact hr
      obtain ⟨c, hc, hcp⟩ := ih hrest
      exact ⟨c, by simp [openLoop, hd, hc], hcp⟩

/-- C7: when an explicit device-ID filter matches a device of the
enumerated list, opening without a protocol fails with the
protocol-required error and never yields a controller, while supplying any
protocol yields a controller carrying exactly that protocol. -/
theorem open_explicit_filter_requires_protocol (devices : List USBDeviceId)
    (fid : USBDeviceId) (hmem : fid ∈ devices) :
    openController devices (some fid) none
        = .error "Device found, but no protocol specified."
    ∧ (∀ c, openController devices (some fid) none ≠ .ok c)
    ∧ ∀ p, ∃ c, openController devices (some fid) (some p) = .ok c ∧ c.protocol = p := by
  refine ⟨openLoop_explicit_no_protocol fid devices hmem, ?_, ?_⟩
  · intro c
    rw [openController, openLoop_explicit_no_protocol fid devices hmem]
    simp
  · intro p
    exact openLoop_explicit_with_protocol fid p devices hmem

/-- C7 (witness): the spec's example, explicit ID `{0x054C, 0x0268}`
with the protocol omitted and then with `SixAxis` supplied. -/
theorem open_explicit_filter_requires_protocol_witness :
    openController [⟨0x054c, 0x0268⟩] (some ⟨0x054c, 0x0268⟩) none
        = .error "Device found, but no protocol specified."
    ∧ (∀ c, openController [⟨0x054c, 0x0268⟩] (some ⟨0x054c, 0x0268⟩) none ≠ .ok c)
    ∧ ∀ p, ∃ c, openController [⟨0x054c, 0x0268⟩] (some ⟨0x054c, 0x0268⟩) (some p) = .ok c
        ∧ c.protocol = p :=
  open_explicit_filter_requires_protocol [⟨0x054c, 0x0268⟩] ⟨0x054c, 0x0268⟩ (by simp)

/- ### Claim C8 -/

lemma openLoop_auto_first_hit (p0 : Option SixAxisProtocol) (pr : SixAxisProtocol)
    (d : USBDeviceId) (post : List USBDeviceId) :
    ∀ pre : List USBDeviceId, (∀ e ∈ pre, (registryScan e p0).1 = false) →
    registryScan d p0 = (true, some pr) →
    openLoop none p0 (pre ++ d :: post) = .ok ⟨d, pr⟩ := by
  intro pre
  induction pre with
  | nil =>
    intro _ hd
    simp [openLoop, hd]
  | cons e rest ih =>
    intro hpre hd
    have he := hpre e (by simp)
    simp [openLoop, he, ih (fun x hx => hpre x (by simp [hx])) hd]

/-- C8: with no explicit filter, the matcher opens the first enumerated
device whose (vendor, product) pair hits the registry and adopts that
record's protocol; in particular a list containing only `{0x054C, 0x05C4}`
resolves to the DualShock4 protocol, and the registry record for that ID
carries the display name "Sony DualShock 4 Controller". -/
theorem open_auto_adopts_registry_protocol (pre post : List USBDeviceId)
    (d : USBDeviceId) (p0 : Option SixAxisProtocol) (pr : SixAxisProtocol)
    (hpre : ∀ e ∈ pre, (registryScan e p0).1 = false)
    (hd : registryScan d p0 = (true, some pr)) :
    openController (pre ++ d :: post) none p0 = .ok ⟨d, pr⟩
    ∧ openController [⟨0x054c, 0x05c4⟩] none none = .ok ⟨⟨0x054c, 0x05c4⟩, .DualShock4⟩
    ∧ (KNOWN_DEVICES.find? (fun kd => kd.id.vendor == 0x054c && kd.id.product == 0x05c4)).map
        KnownDeviceRecord.name = some "Sony DualShock 4 Controller" :=
  ⟨openLoop_auto_first_hit p0 pr d post pre hpre hd, rfl, rfl⟩

/-- C8 (witness): the registry hit at the single-device list
`[{0x054C, 0x05C4}]` with no caller-supplied protocol. -/
theorem open_auto_adopts_registry_protocol_witness :
    openController ([] ++ (⟨0x054c, 0x05c4⟩ : USBDeviceId) :: []) none none
        = .ok ⟨⟨0x054c, 0x05c4⟩, .DualShock4⟩
    ∧ openController [⟨0x054c, 0x05c4⟩] none none = .ok ⟨⟨0x054c, 0x05c4⟩, .DualShock4⟩
    ∧ (KNOWN_DEVICES.find? (fun kd => kd.id.vendor == 0x054c && kd.id.product == 0x05c4)).map
        KnownDeviceRecord.name = some "Sony DualShock 4 Controller" :=
  open_auto_adopts_registry_protocol [] [] ⟨0x054c, 0x05c4⟩ none .DualShock4
    (by simp) (by decide)

/- ### Claim C9 -/

lemma registryScan_no_hit (d : USBDeviceId) (p0 : Option SixAxisProtocol)
    (h : ∀ kd ∈ KNOWN_DEVICES, ¬(d.vendor = kd.id.vendor ∧ d.product = kd.id.product)) :
    registryScan d p0 = (false, p0) := by
  have h1 : ¬(d.vendor = 0x054c ∧ d.product = 0x0268) := by
    simpa using h ⟨"Sony PlayStation 3 Controller", ⟨0x054c, 0x0268⟩, .SixAxis⟩
      (by simp [KNOWN_DEVICES])
  have h2 : ¬(d.vendor = 0x054c ∧ d.product = 0x042f) := by
    simpa using h ⟨"Sony Move Motion Controller", ⟨0x054c, 0x042f⟩, .SixAxis⟩
      (by simp [KNOWN_DEVICES])
  have h3 : ¬(d.vendor = 0x054c ∧ d.product = 0x05c4) := by
    simpa using h ⟨"Sony DualShock 4 Controller", ⟨0x054c, 0x05c4⟩, .DualShock4⟩
      (by simp [KNOWN_DEVICES])
  simp [registryScan, KNOWN_DEVICES, h1, h2, h3]

/-- C9: when no enumerated device matches the explicit filter (if one is
supplied) or, otherwise, no device's (vendor, product) pair is in the
registry, open fails with the no-supported-device error and never yields a
controller. -/
theorem open_no_match_fails (devices : List USBDeviceId)
    (device_id : Option USBDeviceId) (protocol : Option SixAxisProtocol)
    (h : ∀ d ∈ devices,
      match device_id with
      | some fid => ¬(d.vendor = fid.vendor ∧ d.product = fid.product)
      | none => ∀ kd ∈ KNOWN_DEVICES,
          ¬(d.vendor = kd.id.vendor ∧ d.product = kd.id.product)) :
    openController devices device_id protocol = .error "No supported devices found."
    ∧ ∀ c, openController devices device_id protocol ≠ .ok c := by
  have hmain : openController devices device_id protocol
      = .error "No supported devices found." := by
    induction devices with
    | nil =>
      cases device_id <;> rfl
    | cons d rest ih =>
      have hd := h d (by simp)
      have hrest := ih (fun x hx => h x (by simp [hx]))
      cases device_id with
      | some fid =>
        simp only at hd
        simpa [openController, openLoop, hd] using hrest
      | none =>
        simp only at hd
        have hscan := registryScan_no_hit d protocol hd
        simpa [openController, openLoop, hscan] using hrest
  refine ⟨hmain, ?_⟩
  intro c
  rw [hmain]
  simp

/-- C9 (witness): a one-device list whose (vendor, product) pair
`{0x0001, 0x0002}` is neither in the registry (auto mode, no filter). -/
theorem open_no_match_fails_witness :
    openController [⟨1, 2⟩] none none = .error "No supported devices found."
    ∧ ∀ c, openController [⟨1, 2⟩] none none ≠ .ok c :=
  open_no_match_fails [⟨1, 2⟩] none none (by decide)
